import Mathlib

/-!
Shallow embedding of the `rust-todo` in-memory task-list service
(`src/lib.rs` and `src/main.rs`).

Modelling conventions:
- `Uuid` (a 128-bit random identifier in the source) is modelled as `Nat`:
  the program only ever compares identifiers for equality, so an opaque
  type with decidable equality suffices.  `Uuid::new_v4()` is a source of
  fresh randomness; it is modelled by passing the generated value as an
  explicit `fresh` argument to the operations that call it.
- `Vec<Todo>` becomes `List Todo`; `AppState` keeps the one-field struct
  shape of the source.
- Each HTTP handler becomes a pure function from its parsed inputs and the
  locked state to a `Response` (the status/body it produces) and the state
  it leaves behind.  A single sequential call models one critical section:
  in the source every handler except `delete_todo` touches the state under
  a single `data.lock()`; `delete_todo` takes the lock twice, which is
  modelled separately by `delete_todo_racy` below.
-/

set_option autoImplicit false

namespace TodoApp

/-- Opaque identifier; only equality is ever used in the source. -/
abbrev Uuid := Nat

/-- Payload of `POST /` (struct `NewTodo` in `lib.rs`). -/
structure NewTodo where
  title : String
  deriving Repr, DecidableEq

/-- Payload of `PATCH /{id}` (struct `UpdateTodo` in `lib.rs`): both
fields optional, absence meaning "leave unchanged". -/
structure UpdateTodo where
  title : Option String
  completed : Option Bool
  deriving Repr, DecidableEq

/-- A stored task item (struct `Todo` in `lib.rs`). -/
structure Todo where
  id : Uuid
  title : String
  completed : Bool
  deriving Repr, DecidableEq

/-- `Todo::from_new` (`lib.rs`): fresh id, title copied verbatim,
`completed` initialised to `false`.  The freshly generated uuid is the
explicit `fresh` argument. -/
def Todo.from_new (fresh : Uuid) (todo : NewTodo) : Todo :=
  { id := fresh, title := todo.title, completed := false }

/-- The mutex-guarded application state (struct `AppState` in `main.rs`). -/
structure AppState where
  items : List Todo
  deriving Repr, DecidableEq

/-- The responses the handlers produce (status code plus JSON body). -/
inductive Response where
  | okList : List Todo → Response
  | okTodo : Todo → Response
  | okEmpty : Response
  | created : Uuid → Response
  | notFound : Response
  deriving Repr, DecidableEq

/-- HTTP status code of each response shape. -/
def Response.statusCode : Response → Nat
  | .okList _ => 200
  | .okTodo _ => 200
  | .okEmpty => 200
  | .created _ => 201
  | .notFound => 404

/-- `Iterator::find` as used in `get_todo`: first element satisfying the
predicate, scanning left to right. -/
def findTodo (p : Todo → Bool) : List Todo → Option Todo
  | [] => none
  | t :: rest => if p t then some t else findTodo p rest

/-- `Iterator::position` as used in `delete_todo`: index of the first
element satisfying the predicate. -/
def position (p : Todo → Bool) : List Todo → Option Nat
  | [] => none
  | t :: rest => if p t then some 0 else (position p rest).map (· + 1)

/-- `Vec::remove(i)` on an index known to be in range: drops the element
at position `i`, shifting the rest left (total version; the in-range
side condition is established where it is used). -/
def removeAt : List Todo → Nat → List Todo
  | [], _ => []
  | _ :: rest, 0 => rest
  | t :: rest, n + 1 => t :: removeAt rest n

/-- `Vec::remove(i)` with its panic made explicit: `none` when the index
is out of range (Rust would abort the thread there). -/
def removeAt? : List Todo → Nat → Option (List Todo)
  | [], _ => none
  | _ :: rest, 0 => some rest
  | t :: rest, n + 1 => (removeAt? rest n).map (t :: ·)

/-- The body of `update_todo`'s loop on the matched item: assign `title`
only when the request carried one, likewise `completed`. -/
def applyUpdate (upd : UpdateTodo) (t : Todo) : Todo :=
  let t1 := match upd.title with
    | some s => { t with title := s }
    | none => t
  match upd.completed with
  | some c => { t1 with completed := c }
  | none => t1

/-- The `for item in &mut items` loop of `update_todo`: rewrite the first
item whose id matches and stop (`return Ok`); `none` when no item
matches (the loop falls through to `NotFound`). -/
def updateItems (ident : Uuid) (upd : UpdateTodo) : List Todo → Option (List Todo)
  | [] => none
  | t :: rest =>
    if t.id == ident then some (applyUpdate upd t :: rest)
    else (updateItems ident upd rest).map (t :: ·)

/-- Handler `get` (`GET /`): JSON snapshot of all items, in order. -/
def get (s : AppState) : Response × AppState :=
  (.okList s.items, s)

/-- Handler `delete` (`DELETE /`): replaces the collection with
`Vec::default()`. -/
def delete (_s : AppState) : Response × AppState :=
  (.okEmpty, ⟨[]⟩)

/-- Handler `get_todo` (`GET /{id}`): first item with a matching id, or
404.  Purely a read: the state is returned unchanged. -/
def get_todo (ident : Uuid) (s : AppState) : Response × AppState :=
  match findTodo (fun x => x.id == ident) s.items with
  | some todo => (.okTodo todo, s)
  | none => (.notFound, s)

/-- Handler `add` (`POST /`): build the item with `Todo::from_new`, push
it at the end, answer `201` with the generated id. -/
def add (fresh : Uuid) (todo : NewTodo) (s : AppState) : Response × AppState :=
  let t := Todo.from_new fresh todo
  (.created t.id, ⟨s.items ++ [t]⟩)

/-- Handler `delete_todo` (`DELETE /{id}`), sequential semantics: locate
the first matching index, remove it; 404 when absent.  (The source takes
the lock once for `position` and again for `remove`; this function is the
behaviour when nothing intervenes between the two acquisitions — see
`delete_todo_racy` for the interleaved behaviour.) -/
def delete_todo (ident : Uuid) (s : AppState) : Response × AppState :=
  match position (fun x => x.id == ident) s.items with
  | some i => (.okEmpty, ⟨removeAt s.items i⟩)
  | none => (.notFound, s)

/-- Handler `update_todo` (`PATCH /{id}`): single pass under one lock. -/
def update_todo (ident : Uuid) (upd : UpdateTodo) (s : AppState) : Response × AppState :=
  match updateItems ident upd s.items with
  | some l => (.okEmpty, ⟨l⟩)
  | none => (.notFound, s)

/-- Handler `delete_todo` with its two separate lock acquisitions made
explicit: `mid` is whatever state transformation other threads perform
between the `position` acquisition and the `remove` acquisition; the
result is `none` when `Vec::remove` panics (stale index out of range). -/
def delete_todo_racy (ident : Uuid) (mid : AppState → AppState)
    (s : AppState) : Option (Response × AppState) :=
  match position (fun x => x.id == ident) s.items with
  | some i =>
    let s2 := mid s
    (removeAt? s2.items i).map (fun l => ((.okEmpty : Response), (⟨l⟩ : AppState)))
  | none => some (.notFound, s)

/-- Running a batch of `add` requests in order; each pair carries the
uuid generated for that request and the request title. -/
def addAll : List (Uuid × String) → AppState → AppState
  | [], s => s
  | (i, t) :: rest, s => addAll rest (add i ⟨t⟩ s).2

/-- The ids stored in a collection, in collection order. -/
def todoIds (l : List Todo) : List Uuid :=
  l.map Todo.id

/-! ### Helper lemmas -/

theorem findTodo_eq_none (p : Todo → Bool) (l : List Todo)
    (h : ∀ t ∈ l, p t = false) : findTodo p l = none := by
  induction l with
  | nil => rfl
  | cons t rest ih =>
    have ht := h t (List.mem_cons_self t rest)
    simp [findTodo, ht, ih fun u hu => h u (List.mem_cons_of_mem t hu)]

theorem position_eq_none (p : Todo → Bool) (l : List Todo)
    (h : ∀ t ∈ l, p t = false) : position p l = none := by
  induction l with
  | nil => rfl
  | cons t rest ih =>
    simp only [position, h t (List.mem_cons_self t rest)]
    simp [ih fun u hu => h u (List.mem_cons_of_mem t hu)]

theorem updateItems_eq_none (ident : Uuid) (upd : UpdateTodo) (l : List Todo)
    (h : ∀ t ∈ l, t.id ≠ ident) : updateItems ident upd l = none := by
  induction l with
  | nil => rfl
  | cons t rest ih =>
    have ht : (t.id == ident) = false := by
      simp [h t (List.mem_cons_self t rest)]
    simp only [updateItems, ht]
    simp [ih fun u hu => h u (List.mem_cons_of_mem t hu)]

theorem exists_first_match (p : Todo → Bool) (l : List Todo)
    (h : ∃ t ∈ l, p t = true) :
    ∃ l1 t l2, l = l1 ++ t :: l2 ∧ (∀ u ∈ l1, p u = false) ∧ p t = true := by
  induction l with
  | nil => simp at h
  | cons a rest ih =>
    by_cases hp : p a = true
    · exact ⟨[], a, rest, rfl, by simp, hp⟩
    · have hrest : ∃ t ∈ rest, p t = true := by
        obtain ⟨t, ht, hpt⟩ := h
        rcases List.mem_cons.mp ht with rfl | hmem
        · exact absurd hpt hp
        · exact ⟨t, hmem, hpt⟩
      obtain ⟨l1, t, l2, heq, hl1, hpt⟩ := ih hrest
      refine ⟨a :: l1, t, l2, by simp [heq], ?_, hpt⟩
      intro u hu
      rcases List.mem_cons.mp hu with rfl | hmem
      · exact Bool.eq_false_iff.mpr hp
      · exact hl1 u hmem

theorem findTodo_append (p : Todo → Bool) (l1 : List Todo) (t : Todo)
    (l2 : List Todo) (h1 : ∀ u ∈ l1, p u = false) (h2 : p t = true) :
    findTodo p (l1 ++ t :: l2) = some t := by
  induction l1 with
  | nil => simp [findTodo, h2]
  | cons a l1 ih =>
    have ha : p a = false := h1 a (List.mem_cons_self a l1)
    simp only [List.cons_append, findTodo, ha]
    simp only [Bool.false_eq_true, if_false]
    exact ih fun u hu => h1 u (List.mem_cons_of_mem a hu)

theorem position_append (p : Todo → Bool) (l1 : List Todo) (t : Todo)
    (l2 : List Todo) (h1 : ∀ u ∈ l1, p u = false) (h2 : p t = true) :
    position p (l1 ++ t :: l2) = some l1.length := by
  induction l1 with
  | nil => simp [position, h2]
  | cons a l1 ih =>
    have ha : p a = false := h1 a (List.mem_cons_self a l1)
    simp only [List.cons_append, position, ha]
    have := ih fun u hu => h1 u (List.mem_cons_of_mem a hu)
    simp [this]

theorem removeAt_append (l1 : List Todo) (t : Todo) (l2 : List Todo) :
    removeAt (l1 ++ t :: l2) l1.length = l1 ++ l2 := by
  induction l1 with
  | nil => rfl
  | cons a l1 ih => simp [removeAt, ih]

theorem updateItems_append (ident : Uuid) (upd : UpdateTodo) (l1 : List Todo)
    (t : Todo) (l2 : List Todo) (h1 : ∀ u ∈ l1, u.id ≠ ident)
    (h2 : t.id = ident) :
    updateItems ident upd (l1 ++ t :: l2) = some (l1 ++ applyUpdate upd t :: l2) := by
  induction l1 with
  | nil => simp [updateItems, h2]
  | cons a l1 ih =>
    have ha : (a.id == ident) = false := by
      simp [h1 a (List.mem_cons_self a l1)]
    simp only [List.cons_append, updateItems, ha]
    have := ih fun u hu => h1 u (List.mem_cons_of_mem a hu)
    simp [this]

theorem applyUpdate_id (upd : UpdateTodo) (t : Todo) :
    (applyUpdate upd t).id = t.id := by
  cases upd with
  | mk ot oc => cases ot <;> cases oc <;> rfl

theorem applyUpdate_title_none (upd : UpdateTodo) (t : Todo)
    (h : upd.title = none) : (applyUpdate upd t).title = t.title := by
  cases upd with
  | mk ot oc =>
    cases ot with
    | none => cases oc <;> rfl
    | some s => simp at h

theorem applyUpdate_title_some (upd : UpdateTodo) (t : Todo) (s : String)
    (h : upd.title = some s) : (applyUpdate upd t).title = s := by
  cases upd with
  | mk ot oc =>
    cases ot with
    | none => simp at h
    | some s2 =>
      have : s2 = s := by simpa using h
      subst this
      cases oc <;> rfl

theorem applyUpdate_completed_none (upd : UpdateTodo) (t : Todo)
    (h : upd.completed = none) : (applyUpdate upd t).completed = t.completed := by
  cases upd with
  | mk ot oc =>
    cases oc with
    | none => cases ot <;> rfl
    | some c => simp at h

theorem applyUpdate_completed_some (upd : UpdateTodo) (t : Todo) (c : Bool)
    (h : upd.completed = some c) : (applyUpdate upd t).completed = c := by
  cases upd with
  | mk ot oc =>
    cases oc with
    | none => simp at h
    | some c2 =>
      have : c2 = c := by simpa using h
      subst this
      cases ot <;> rfl

theorem applyUpdate_none_none (t : Todo) :
    applyUpdate ⟨none, none⟩ t = t := rfl

theorem updateItems_ids (ident : Uuid) (upd : UpdateTodo) :
    ∀ (l l2 : List Todo), updateItems ident upd l = some l2 →
      todoIds l2 = todoIds l := by
  intro l
  induction l with
  | nil => intro l2 h; simp [updateItems] at h
  | cons t rest ih =>
    intro l2 h
    by_cases ht : (t.id == ident) = true
    · simp only [updateItems, ht, if_true, Option.some.injEq] at h
      subst h
      simp [todoIds, applyUpdate_id]
    · simp only [updateItems, ht, if_false] at h
      obtain ⟨r2, hr2, rfl⟩ := Option.map_eq_some'.mp h
      simp [todoIds] at ih hr2 ⊢
      exact ih r2 hr2

theorem removeAt_sublist : ∀ (l : List Todo) (i : Nat), List.Sublist (removeAt l i) l
  | [], _ => List.Sublist.refl []
  | _ :: rest, 0 => List.Sublist.cons _ (List.Sublist.refl rest)
  | t :: rest, n + 1 => List.Sublist.cons₂ t (removeAt_sublist rest n)

theorem get_todo_state (ident : Uuid) (s : AppState) :
    (get_todo ident s).2 = s := by
  unfold get_todo
  cases findTodo (fun x => x.id == ident) s.items <;> rfl

theorem addAll_items : ∀ (reqs : List (Uuid × String)) (s : AppState),
    (addAll reqs s).items = s.items ++ reqs.map (fun r => Todo.mk r.1 r.2 false)
  | [], s => by simp [addAll]
  | (i, t) :: rest, s => by
    simp [addAll, addAll_items rest, add, Todo.from_new]

/-! ### Claim theorems -/

/-- C1: for every store state and every id present in the collection, the
update operation applies only the fields explicitly supplied in the request
(title and/or completed) to the first matching item and returns Success
(200, empty body); an absent field leaves the corresponding attribute
unchanged, and the item's id is never changed. -/
theorem update_todo_applies_only_supplied_fields (s : AppState) (ident : Uuid)
    (upd : UpdateTodo) (h : ∃ t ∈ s.items, t.id = ident) :
    ∃ l1 t l2,
      s.items = l1 ++ t :: l2 ∧
      (∀ u ∈ l1, u.id ≠ ident) ∧ t.id = ident ∧
      update_todo ident upd s = (.okEmpty, ⟨l1 ++ applyUpdate upd t :: l2⟩) ∧
      Response.okEmpty.statusCode = 200 ∧
      (applyUpdate upd t).id = t.id ∧
      (upd.title = none → (applyUpdate upd t).title = t.title) ∧
      (∀ s2, upd.title = some s2 → (applyUpdate upd t).title = s2) ∧
      (upd.completed = none → (applyUpdate upd t).completed = t.completed) ∧
      (∀ c, upd.completed = some c → (applyUpdate upd t).completed = c) := by
  have h2 : ∃ t ∈ s.items, (fun x => x.id == ident) t = true := by
    obtain ⟨t, ht, hid⟩ := h
    exact ⟨t, ht, by simp [hid]⟩
  obtain ⟨l1, t, l2, heq, hl1, hpt⟩ := exists_first_match _ _ h2
  have hl1₂ : ∀ u ∈ l1, u.id ≠ ident := by
    intro u hu
    have := hl1 u hu
    simpa using this
  have htid : t.id = ident := by simpa using hpt
  refine ⟨l1, t, l2, heq, hl1₂, htid, ?_, rfl, applyUpdate_id upd t,
    fun hn => applyUpdate_title_none upd t hn,
    fun s2 hs => applyUpdate_title_some upd t s2 hs,
    fun hn => applyUpdate_completed_none upd t hn,
    fun c hc => applyUpdate_completed_some upd t c hc⟩
  unfold update_todo
  rw [heq, updateItems_append ident upd l1 t l2 hl1₂ htid]

/-- Witness for C1: updating id 1 with only `completed` supplied, in a
two-item store where the matching item sits second. -/
theorem update_todo_applies_only_supplied_fields_witness :
    (∃ t ∈ (AppState.mk [⟨5, "x", false⟩, ⟨1, "a", false⟩]).items, t.id = 1) ∧
    (∃ l1 t l2,
      (AppState.mk [⟨5, "x", false⟩, ⟨1, "a", false⟩]).items = l1 ++ t :: l2 ∧
      (∀ u ∈ l1, u.id ≠ 1) ∧ t.id = 1 ∧
      update_todo 1 ⟨none, some true⟩ (AppState.mk [⟨5, "x", false⟩, ⟨1, "a", false⟩])
        = (.okEmpty, ⟨l1 ++ applyUpdate ⟨none, some true⟩ t :: l2⟩) ∧
      Response.okEmpty.statusCode = 200 ∧
      (applyUpdate ⟨none, some true⟩ t).id = t.id ∧
      ((⟨none, some true⟩ : UpdateTodo).title = none →
        (applyUpdate ⟨none, some true⟩ t).title = t.title) ∧
      (∀ s2, (⟨none, some true⟩ : UpdateTodo).title = some s2 →
        (applyUpdate ⟨none, some true⟩ t).title = s2) ∧
      ((⟨none, some true⟩ : UpdateTodo).completed = none →
        (applyUpdate ⟨none, some true⟩ t).completed = t.completed) ∧
      (∀ c, (⟨none, some true⟩ : UpdateTodo).completed = some c →
        (applyUpdate ⟨none, some true⟩ t).completed = c)) :=
  ⟨by decide,
    update_todo_applies_only_supplied_fields _ 1 ⟨none, some true⟩ (by decide)⟩

/-- C2: for every store state and every id not present in the collection,
each of get, update and delete returns NotFound (404) and leaves the state
entirely unchanged. -/
theorem unknown_id_not_found_no_mutation (s : AppState) (ident : Uuid)
    (upd : UpdateTodo) (h : ∀ t ∈ s.items, t.id ≠ ident) :
    get_todo ident s = (.notFound, s) ∧
    update_todo ident upd s = (.notFound, s) ∧
    delete_todo ident s = (.notFound, s) ∧
    Response.notFound.statusCode = 404 := by
  have hb : ∀ t ∈ s.items, (fun x => x.id == ident) t = false := by
    intro t ht
    simp [h t ht]
  refine ⟨?_, ?_, ?_, rfl⟩
  · unfold get_todo
    rw [findTodo_eq_none _ _ hb]
  · unfold update_todo
    rw [updateItems_eq_none ident upd s.items h]
  · unfold delete_todo
    rw [position_eq_none _ _ hb]

/-- Witness for C2: a one-item store addressed with an id it does not
contain. -/
theorem unknown_id_not_found_no_mutation_witness :
    (∀ t ∈ (AppState.mk [⟨1, "a", false⟩]).items, t.id ≠ 2) ∧
    (get_todo 2 (AppState.mk [⟨1, "a", false⟩])
        = (.notFound, AppState.mk [⟨1, "a", false⟩]) ∧
      update_todo 2 ⟨some "z", some true⟩ (AppState.mk [⟨1, "a", false⟩])
        = (.notFound, AppState.mk [⟨1, "a", false⟩]) ∧
      delete_todo 2 (AppState.mk [⟨1, "a", false⟩])
        = (.notFound, AppState.mk [⟨1, "a", false⟩]) ∧
      Response.notFound.statusCode = 404) :=
  ⟨by decide,
    unknown_id_not_found_no_mutation _ 2 ⟨some "z", some true⟩ (by decide)⟩

/-- C3: for every store state and title string, add constructs the item
with `completed = false` and the title stored exactly as given, appends it
at the end leaving all existing items unchanged and in order, and returns
the generated id with status 201. -/
theorem add_appends_new_todo (s : AppState) (title : String) (fresh : Uuid) :
    Todo.from_new fresh ⟨title⟩ = ⟨fresh, title, false⟩ ∧
    add fresh ⟨title⟩ s = (.created fresh, ⟨s.items ++ [⟨fresh, title, false⟩]⟩) ∧
    (Response.created fresh).statusCode = 201 :=
  ⟨rfl, rfl, rfl⟩

/-- C4: get scans the collection in order and returns the first item whose
id matches (200), or NotFound (404) if no item matches; with duplicate ids
the first match in collection order is returned.  The state is unchanged in
both cases. -/
theorem get_todo_first_match (s : AppState) (ident : Uuid) :
    ((∃ t ∈ s.items, t.id = ident) →
      ∃ l1 t l2,
        s.items = l1 ++ t :: l2 ∧
        (∀ u ∈ l1, u.id ≠ ident) ∧ t.id = ident ∧
        get_todo ident s = (.okTodo t, s) ∧
        (Response.okTodo t).statusCode = 200) ∧
    ((∀ t ∈ s.items, t.id ≠ ident) →
      get_todo ident s = (.notFound, s) ∧ Response.notFound.statusCode = 404) := by
  constructor
  · intro h
    have h2 : ∃ t ∈ s.items, (fun x => x.id == ident) t = true := by
      obtain ⟨t, ht, hid⟩ := h
      exact ⟨t, ht, by simp [hid]⟩
    obtain ⟨l1, t, l2, heq, hl1, hpt⟩ := exists_first_match _ _ h2
    have hl1₂ : ∀ u ∈ l1, u.id ≠ ident := by
      intro u hu
      have := hl1 u hu
      simpa using this
    have htid : t.id = ident := by simpa using hpt
    refine ⟨l1, t, l2, heq, hl1₂, htid, ?_, rfl⟩
    unfold get_todo
    rw [heq, findTodo_append _ _ _ _ hl1 hpt]
  · intro h
    refine ⟨?_, rfl⟩
    unfold get_todo
    rw [findTodo_eq_none _ _ (fun t ht => by simp [h t ht])]

/-- Witness for C4: a store holding two items that share id 1 (the
corruption scenario); the lookup deterministically returns the first. -/
theorem get_todo_first_match_witness :
    (∃ t ∈ (AppState.mk [⟨1, "a", false⟩, ⟨1, "b", true⟩]).items, t.id = 1) ∧
    (∃ l1 t l2,
      (AppState.mk [⟨1, "a", false⟩, ⟨1, "b", true⟩]).items = l1 ++ t :: l2 ∧
      (∀ u ∈ l1, u.id ≠ 1) ∧ t.id = 1 ∧
      get_todo 1 (AppState.mk [⟨1, "a", false⟩, ⟨1, "b", true⟩])
        = (.okTodo t, AppState.mk [⟨1, "a", false⟩, ⟨1, "b", true⟩]) ∧
      (Response.okTodo t).statusCode = 200) :=
  ⟨by decide, (get_todo_first_match (AppState.mk [⟨1, "a", false⟩, ⟨1, "b", true⟩]) 1).1 (by decide)⟩

/-- C5: for every store state and every id present in the collection,
delete removes exactly the first item whose id matches and returns Success
(200); every other item is left unchanged and the remaining items keep
their original relative order with no gaps. -/
theorem delete_todo_removes_first_match (s : AppState) (ident : Uuid)
    (h : ∃ t ∈ s.items, t.id = ident) :
    ∃ l1 t l2,
      s.items = l1 ++ t :: l2 ∧
      (∀ u ∈ l1, u.id ≠ ident) ∧ t.id = ident ∧
      delete_todo ident s = (.okEmpty, ⟨l1 ++ l2⟩) ∧
      Response.okEmpty.statusCode = 200 := by
  have h2 : ∃ t ∈ s.items, (fun x => x.id == ident) t = true := by
    obtain ⟨t, ht, hid⟩ := h
    exact ⟨t, ht, by simp [hid]⟩
  obtain ⟨l1, t, l2, heq, hl1, hpt⟩ := exists_first_match _ _ h2
  have hl1₂ : ∀ u ∈ l1, u.id ≠ ident := by
    intro u hu
    have := hl1 u hu
    simpa using this
  have htid : t.id = ident := by simpa using hpt
  refine ⟨l1, t, l2, heq, hl1₂, htid, ?_, rfl⟩
  unfold delete_todo
  rw [heq, position_append _ _ _ _ hl1 hpt]
  simp [removeAt_append]

/-- Witness for C5: deleting id 1 from a three-item store whose matching
item sits in the middle. -/
theorem delete_todo_removes_first_match_witness :
    (∃ t ∈ (AppState.mk [⟨5, "x", false⟩, ⟨1, "a", false⟩, ⟨9, "y", true⟩]).items,
      t.id = 1) ∧
    (∃ l1 t l2,
      (AppState.mk [⟨5, "x", false⟩, ⟨1, "a", false⟩, ⟨9, "y", true⟩]).items
        = l1 ++ t :: l2 ∧
      (∀ u ∈ l1, u.id ≠ 1) ∧ t.id = 1 ∧
      delete_todo 1 (AppState.mk [⟨5, "x", false⟩, ⟨1, "a", false⟩, ⟨9, "y", true⟩])
        = (.okEmpty, ⟨l1 ++ l2⟩) ∧
      Response.okEmpty.statusCode = 200) :=
  ⟨by decide,
    delete_todo_removes_first_match
      (AppState.mk [⟨5, "x", false⟩, ⟨1, "a", false⟩, ⟨9, "y", true⟩]) 1 (by decide)⟩

/-- C7: clear always succeeds and replaces the collection with an empty
one; listing immediately afterwards returns an empty sequence whatever the
prior contents were. -/
theorem clear_then_list_empty (s : AppState) :
    delete s = (.okEmpty, ⟨[]⟩) ∧
    get (delete s).2 = (.okList [], ⟨[]⟩) ∧
    Response.okEmpty.statusCode = 200 :=
  ⟨rfl, rfl, rfl⟩

/-- C9: the empty string is accepted as a title without any validation: an
item with an empty title is created, stored and returned like any other. -/
theorem add_empty_title_succeeds (s : AppState) (fresh : Uuid) :
    Todo.from_new fresh ⟨""⟩ = ⟨fresh, "", false⟩ ∧
    add fresh ⟨""⟩ s = (.created fresh, ⟨s.items ++ [⟨fresh, "", false⟩]⟩) ∧
    (Response.created fresh).statusCode = 201 :=
  ⟨rfl, rfl, rfl⟩

/-- C10: an update request carrying neither field, addressed to a present
id, returns Success and is an identity on the state. -/
theorem update_todo_no_fields_identity (s : AppState) (ident : Uuid)
    (h : ∃ t ∈ s.items, t.id = ident) :
    update_todo ident ⟨none, none⟩ s = (.okEmpty, s) := by
  have h2 : ∃ t ∈ s.items, (fun x => x.id == ident) t = true := by
    obtain ⟨t, ht, hid⟩ := h
    exact ⟨t, ht, by simp [hid]⟩
  obtain ⟨l1, t, l2, heq, hl1, hpt⟩ := exists_first_match _ _ h2
  have hl1₂ : ∀ u ∈ l1, u.id ≠ ident := by
    intro u hu
    have := hl1 u hu
    simpa using this
  have htid : t.id = ident := by simpa using hpt
  unfold update_todo
  rw [heq, updateItems_append ident ⟨none, none⟩ l1 t l2 hl1₂ htid,
    applyUpdate_none_none, ← heq]

/-- Witness for C10: the empty update on a two-item store. -/
theorem update_todo_no_fields_identity_witness :
    (∃ t ∈ (AppState.mk [⟨1, "a", false⟩, ⟨2, "b", true⟩]).items, t.id = 2) ∧
    update_todo 2 ⟨none, none⟩ (AppState.mk [⟨1, "a", false⟩, ⟨2, "b", true⟩])
      = (.okEmpty, AppState.mk [⟨1, "a", false⟩, ⟨2, "b", true⟩]) :=
  ⟨by decide,
    update_todo_no_fields_identity (AppState.mk [⟨1, "a", false⟩, ⟨2, "b", true⟩]) 2 (by decide)⟩

/-- C6: under the hypothesis that every generated id is fresh, a batch of
add operations appends the new items in exactly the order they were added,
each stored item carries the id returned at its creation, the resulting
collection has pairwise distinct ids, and the unique-id property is
preserved by every store operation. -/
theorem add_sequence_order_unique_ids (reqs : List (Uuid × String)) (s : AppState)
    (hids : (todoIds s.items).Nodup)
    (hfresh : (reqs.map Prod.fst).Nodup ∧ ∀ r ∈ reqs, r.1 ∉ todoIds s.items) :
    (addAll reqs s).items = s.items ++ reqs.map (fun r => Todo.mk r.1 r.2 false) ∧
    get (addAll reqs s)
      = (.okList (s.items ++ reqs.map (fun r => Todo.mk r.1 r.2 false)), addAll reqs s) ∧
    (∀ (fresh : Uuid) (todo : NewTodo) (s2 : AppState),
      add fresh todo s2 = (.created fresh, ⟨s2.items ++ [Todo.from_new fresh todo]⟩)) ∧
    (todoIds (addAll reqs s).items).Nodup ∧
    (∀ (fresh : Uuid) (todo : NewTodo) (s2 : AppState), (todoIds s2.items).Nodup →
      fresh ∉ todoIds s2.items → (todoIds (add fresh todo s2).2.items).Nodup) ∧
    (∀ (ident : Uuid) (s2 : AppState), (todoIds s2.items).Nodup →
      (todoIds (get_todo ident s2).2.items).Nodup) ∧
    (∀ (ident : Uuid) (upd : UpdateTodo) (s2 : AppState), (todoIds s2.items).Nodup →
      (todoIds (update_todo ident upd s2).2.items).Nodup) ∧
    (∀ (ident : Uuid) (s2 : AppState), (todoIds s2.items).Nodup →
      (todoIds (delete_todo ident s2).2.items).Nodup) ∧
    (∀ s2 : AppState, (todoIds (delete s2).2.items).Nodup) ∧
    (∀ s2 : AppState, (get s2).2 = s2) := by
  have hA := addAll_items reqs s
  have hmain : todoIds (addAll reqs s).items = todoIds s.items ++ reqs.map Prod.fst := by
    rw [hA]
    simp [todoIds, List.map_map]
  have hdisj : (todoIds s.items).Disjoint (reqs.map Prod.fst) := by
    intro a ha hb
    obtain ⟨r, hr, hra⟩ := List.mem_map.mp hb
    exact hfresh.2 r hr (by rw [hra]; exact ha)
  have hnodup : (todoIds (addAll reqs s).items).Nodup := by
    rw [hmain, List.nodup_append]
    exact ⟨hids, hfresh.1, hdisj⟩
  refine ⟨hA, ?_, fun fresh todo s2 => rfl, hnodup, ?_, ?_, ?_, ?_, ?_, fun s2 => rfl⟩
  · unfold get
    rw [hA]
  · intro fresh todo s2 hn hfr
    have hit : (add fresh todo s2).2.items = s2.items ++ [Todo.from_new fresh todo] := rfl
    rw [hit]
    have hmap : todoIds (s2.items ++ [Todo.from_new fresh todo])
        = todoIds s2.items ++ [fresh] := by
      simp [todoIds, Todo.from_new]
    rw [hmap, List.nodup_append]
    refine ⟨hn, List.nodup_singleton _, ?_⟩
    intro a ha hb
    rw [List.mem_singleton] at hb
    subst hb
    exact hfr ha
  · intro ident s2 hn
    rwa [get_todo_state]
  · intro ident upd s2 hn
    unfold update_todo
    cases hu : updateItems ident upd s2.items with
    | none => exact hn
    | some l =>
      have hl := updateItems_ids ident upd s2.items l hu
      simp only [todoIds] at hl hn ⊢
      rw [hl]
      exact hn
  · intro ident s2 hn
    unfold delete_todo
    cases hp : position (fun x => x.id == ident) s2.items with
    | none => exact hn
    | some i =>
      simp only [todoIds] at hn ⊢
      exact List.Nodup.sublist (List.Sublist.map Todo.id (removeAt_sublist s2.items i)) hn
  · intro s2
    simp [delete, todoIds]

/-- Witness for C6: adding ids 1 then 2 with titles `a` and `b` to an
empty store. -/
theorem add_sequence_order_unique_ids_witness :
    ((todoIds (AppState.mk []).items).Nodup ∧
      ((([((1 : Uuid), "a"), (2, "b")]).map Prod.fst).Nodup ∧
        ∀ r ∈ [((1 : Uuid), "a"), (2, "b")], r.1 ∉ todoIds (AppState.mk []).items)) ∧
    ((addAll [((1 : Uuid), "a"), (2, "b")] (AppState.mk [])).items
        = (AppState.mk []).items
          ++ ([((1 : Uuid), "a"), (2, "b")]).map (fun r => Todo.mk r.1 r.2 false) ∧
      get (addAll [((1 : Uuid), "a"), (2, "b")] (AppState.mk []))
        = (.okList ((AppState.mk []).items
            ++ ([((1 : Uuid), "a"), (2, "b")]).map (fun r => Todo.mk r.1 r.2 false)),
          addAll [((1 : Uuid), "a"), (2, "b")] (AppState.mk [])) ∧
      (∀ (fresh : Uuid) (todo : NewTodo) (s2 : AppState),
        add fresh todo s2 = (.created fresh, ⟨s2.items ++ [Todo.from_new fresh todo]⟩)) ∧
      (todoIds (addAll [((1 : Uuid), "a"), (2, "b")] (AppState.mk [])).items).Nodup ∧
      (∀ (fresh : Uuid) (todo : NewTodo) (s2 : AppState), (todoIds s2.items).Nodup →
        fresh ∉ todoIds s2.items → (todoIds (add fresh todo s2).2.items).Nodup) ∧
      (∀ (ident : Uuid) (s2 : AppState), (todoIds s2.items).Nodup →
        (todoIds (get_todo ident s2).2.items).Nodup) ∧
      (∀ (ident : Uuid) (upd : UpdateTodo) (s2 : AppState), (todoIds s2.items).Nodup →
        (todoIds (update_todo ident upd s2).2.items).Nodup) ∧
      (∀ (ident : Uuid) (s2 : AppState), (todoIds s2.items).Nodup →
        (todoIds (delete_todo ident s2).2.items).Nodup) ∧
      (∀ s2 : AppState, (todoIds (delete s2).2.items).Nodup) ∧
      (∀ s2 : AppState, (get s2).2 = s2)) :=
  ⟨⟨by decide, by decide⟩,
    add_sequence_order_unique_ids [((1 : Uuid), "a"), (2, "b")] (AppState.mk [])
      (by decide) ⟨by decide, by decide⟩⟩

/-- C8: the claim says `delete_todo`'s locate and remove steps happen
atomically under one lock acquisition, so no concurrent delete can race the
locate-then-act step.  The source instead takes the mutex once for
`position` and a second time for `remove`; this theorem evaluates that
two-acquisition code at a concrete interleaving: on the store
`[{id 1}, {id 2}]`, two concurrent `DELETE /1` requests (the second one
completing inside the first one's lock gap) end with the empty store — the
item with id 2 is removed although no request addressed it — whereas both
serial orders of the same two requests keep item 2 and answer NotFound to
the second request; on a one-item store the same interleaving makes
`Vec::remove` panic (stale index out of range, modelled as `none`). -/
theorem delete_todo_lock_gap_race :
    delete_todo_racy 1 (fun s => (delete_todo 1 s).2)
        (AppState.mk [⟨1, "a", false⟩, ⟨2, "b", false⟩])
      = some (.okEmpty, AppState.mk []) ∧
    delete_todo 1 (delete_todo 1 (AppState.mk [⟨1, "a", false⟩, ⟨2, "b", false⟩])).2
      = (.notFound, AppState.mk [⟨2, "b", false⟩]) ∧
    delete_todo_racy 1 (fun s => (delete_todo 1 s).2) (AppState.mk [⟨1, "a", false⟩])
      = none := by
  refine ⟨?_, ?_, ?_⟩ <;> decide

end TodoApp
